import Mathlib

/-
  Verification of the `same` duplicate-file finder (Go) against its
  natural-language specification.

  The development shallowly embeds the full-featured program variant
  (the one with extended-attribute caching and the `-d` duplicates
  report): `getHash`, `hashFile`, `ProcessOneFile`, `walkAndProcess`,
  and `main`'s root-path loop and per-group duplicate rendering.

  Modelling conventions:
  - Go strings (paths, algorithm names, digests, xattr values) are
    `List Char`, written `Str`.  Concrete literals are `"...".toList`.
  - The filesystem is a passive structure `FS`: `stat`/`lstat` results,
    symlink resolution (`filepath.EvalSymlinks`), file contents
    (`os.Open` + `io.Copy`), the directory tree seen by
    `filepath.WalkDir` (`FNode`), the initial extended attributes and
    whether an `xattr.Set` on a given key succeeds, and an oracle
    `digest` for the raw bytes produced by a hash accumulator's `Sum`.
  - Mutable program state (the global `filesByHash` map, the
    `fileCount` counter, the extended attributes as modified by
    `xattr.Set`) is threaded through `RunState`.  `RunState` also keeps
    instrumentation journals of the observable effects the claims talk
    about: insertion events into the index, `hashFile` invocations
    (each opens the file), `xattr.Get`/`xattr.Set` calls, and a count
    of `log.Printf` error lines.
  - Terminal output (progress bars, timing, the actual printing) is not
    modelled; the duplicates report is modelled by `renderGroup`, which
    returns the printed lines of one group as (displayed path, marker)
    pairs.
-/

namespace GoSame

/-- Go strings are modelled as lists of characters. -/
abbrev Str := List Char

/-- ASCII lowercasing of one character; models `strings.ToLower` on the
ASCII algorithm names the program compares against. -/
def lowerChar (c : Char) : Char :=
  if 65 ≤ c.toNat ∧ c.toNat ≤ 90 then Char.ofNat (c.toNat + 32) else c

/-- Models `strings.ToLower`. -/
def lowerStr (s : Str) : Str := s.map lowerChar

/-- The closed set of supported algorithm identifiers, from the cases of
`getHash`'s switch statement. -/
def hashAlgoNames : List Str :=
  ["md4", "md5", "sha1", "sha224", "sha256", "sha384", "sha512",
   "ripemd160", "sha3-224", "sha3-256", "sha3-384", "sha3-512",
   "blake2b", "shake128", "shake256"].map String.toList

/-- Models `getHash`: whether the switch on `strings.ToLower(algo)`
produces an accumulator (`true`) or the `unsupported hash algorithm`
error (`false`).  `blake2b.New512(nil)` never fails for a nil key. -/
def getHashOk (algo : Str) : Bool := hashAlgoNames.contains (lowerStr algo)

/-- Models `strings.HasPrefix(strings.ToLower(algo), "shake")` in
`hashFile`. -/
def isShake (algo : Str) : Bool := List.isPrefixOf "shake".toList (lowerStr algo)

/-- One lowercase hexadecimal digit, as produced by `fmt.Sprintf("%x")`. -/
def hexDigit (n : Nat) : Char :=
  if n < 10 then Char.ofNat (48 + n) else Char.ofNat (87 + n)

/-- Two hex digits for one byte. -/
def hexPair (b : Nat) : List Char := [hexDigit (b % 256 / 16), hexDigit (b % 16)]

/-- Models `fmt.Sprintf("%x", bytes)`: lowercase hex, two digits per byte. -/
def hexChars (bs : List Nat) : Str := bs.flatMap hexPair

/-- Result of `os.Stat` / `os.Lstat` / `DirEntry.Info`. -/
structure FileInfo where
  size : Nat
  isDir : Bool
  isSymlink : Bool
  deriving DecidableEq

/-- A node of the directory tree as enumerated by `filepath.WalkDir`.
`WalkDir` itself never follows symlinks, so a symlink is a leaf.
`errInfo` marks an entry whose `d.Info()` call fails; `errAccess` marks
a path for which `WalkDir` invokes the callback with a non-nil `err`
(root lstat failure, unreadable directory entry). -/
inductive FNode where
  | file : FNode
  | dir : List (Str × FNode) → FNode
  | symlink : FNode
  | errInfo : FNode
  | errAccess : FNode

/-- The passive filesystem environment of one run. -/
structure FS where
  lstat : Str → Option FileInfo
  stat : Str → Option FileInfo
  resolve : Str → Option Str
  content : Str → Option (List Nat)
  tree : Str → FNode
  xattrInit : List ((Str × Str) × Str)
  xattrSetOk : Str → Str → Bool
  digest : Str → List Nat → List Nat

/-- Models the Go slice dance in `hashFile`'s XOF branch:
`output := make([]byte, 64)` is 64 zero bytes; `h.Sum(output[:0])`
appends the accumulator's default-length output into `output`'s backing
array (in place, since the capacity is 64) when it fits, and `output`
keeps length 64, so the bytes beyond what `Sum` wrote stay zero.  If the
appended output did not fit in the capacity, `append` would reallocate
and `output` would remain all zeros. -/
def sumInto64 (raw : List Nat) : List Nat :=
  if raw.length ≤ 64 then raw ++ List.replicate (64 - raw.length) 0
  else List.replicate 64 0

/-- Models `hashFile`: select the accumulator via `getHash` (failing on
an unsupported name), open and stream the file (failing if the content
is unreadable), then format the digest; for `shake*` algorithms the
64-byte buffer convention of `sumInto64` applies, otherwise
`h.Sum(nil)` yields exactly the accumulator's output. -/
def hashFile (fs : FS) (filePath : Str) (algo : Str) : Option Str :=
  if getHashOk algo then
    match fs.content filePath with
    | none => none
    | some data =>
      if isShake algo then some (hexChars (sumInto64 (fs.digest algo data)))
      else some (hexChars (fs.digest algo data))
  else none

/-- The duplicate index: the global `filesByHash` map, as an association
list from digest to the bucket of paths in insertion order. -/
abbrev Index := List (Str × List Str)

/-- Models `filesByHash[key] = append(filesByHash[key], path)`. -/
def insertIndex : Index → Str → Str → Index
  | [], k, p => [(k, [p])]
  | (k0, ps) :: rest, k, p =>
    if k0 = k then (k0, ps ++ [p]) :: rest else (k0, ps) :: insertIndex rest k p

/-- Lookup in the extended-attribute store (models `xattr.Get`; a
missing key is the error case). -/
def lookupAssoc : List ((Str × Str) × Str) → Str → Str → Option Str
  | [], _, _ => none
  | (k, v) :: rest, p, n => if k = (p, n) then some v else lookupAssoc rest p n

/-- Overwriting update of the extended-attribute store (the effect of a
successful `xattr.Set`). -/
def setAssoc : List ((Str × Str) × Str) → Str → Str → Str → List ((Str × Str) × Str)
  | [], p, n, v => [((p, n), v)]
  | (k, v0) :: rest, p, n, v =>
    if k = (p, n) then ((p, n), v) :: rest else (k, v0) :: setAssoc rest p n v

/-- Mutable state of one run, plus effect journals. -/
structure RunState where
  filesByHash : Index
  fileCount : Nat
  xattrs : List ((Str × Str) × Str)
  inserted : List (Str × Str)
  hashCalls : List Str
  xattrReads : List (Str × Str)
  xattrWrites : List (Str × Str × Str)
  logs : Nat
  deriving DecidableEq

/-- Insert a (digest, path) pair into the index, journalling the event. -/
def stInsert (st : RunState) (k p : Str) : RunState :=
  { st with filesByHash := insertIndex st.filesByHash k p,
            inserted := st.inserted ++ [(k, p)] }

/-- Models `*fileCount++`. -/
def bumpCount (st : RunState) : RunState := { st with fileCount := st.fileCount + 1 }

/-- Models one `log.Printf` error line. -/
def addLog (st : RunState) : RunState := { st with logs := st.logs + 1 }

/-- Journal one `hashFile` invocation (each such call opens the file). -/
def recordHashCall (st : RunState) (p : Str) : RunState :=
  { st with hashCalls := st.hashCalls ++ [p] }

/-- Journal one `xattr.Get` call. -/
def recordXattrRead (st : RunState) (p n : Str) : RunState :=
  { st with xattrReads := st.xattrReads ++ [(p, n)] }

/-- Models `xattr.Set`: the attempt is journalled; on success the store
is updated, on failure the error is logged and nothing else happens. -/
def xattrSet (fs : FS) (st : RunState) (p n v : Str) : RunState :=
  let st1 := { st with xattrWrites := st.xattrWrites ++ [(p, n, v)] }
  if fs.xattrSetOk p n then { st1 with xattrs := setAssoc st1.xattrs p n v }
  else addLog st1

/-- The behavioural command-line options (cosmetic flags such as
`verbose`, `blockSize`, `rowSize`, `digits` only shape progress output
and are not modelled). -/
structure Config where
  hashAlgo : Str
  recursive : Bool
  followLinks : Bool
  storeXattr : Bool
  recreateXattr : Bool
  deriving DecidableEq

/-- Models `xattrName := "user.same-hash." + hashAlgo`. -/
def xattrNameOf (algo : Str) : Str := "user.same-hash.".toList ++ algo

/-- The digest key used for every zero-length file. -/
def zeroKey : Str := "0-byte-file".toList

/-- Models `ProcessOneFile`: stat the path (on failure log and count the
file); zero-sized files go to the `0-byte-file` bucket; otherwise the
digest is obtained according to the xattr flags (`storeXattr` without
`recreateXattr`: try the cache, on miss compute and store;
`recreateXattr`: always compute and store; neither: just compute), a
hashing failure is logged and the file dropped, and finally the digest
and path are inserted into `filesByHash` and the counter bumped. -/
def processOneFile (fs : FS) (cfg : Config) (filePath : Str) (st : RunState) : RunState :=
  match fs.stat filePath with
  | none => bumpCount (addLog st)
  | some info =>
    if info.size = 0 then
      bumpCount (stInsert st zeroKey filePath)
    else
      let xn := xattrNameOf cfg.hashAlgo
      if cfg.storeXattr || cfg.recreateXattr then
        if cfg.storeXattr && !cfg.recreateXattr then
          let st1 := recordXattrRead st filePath xn
          match lookupAssoc st.xattrs filePath xn with
          | some v => bumpCount (stInsert st1 v filePath)
          | none =>
            let st2 := recordHashCall st1 filePath
            match hashFile fs filePath cfg.hashAlgo with
            | none => addLog st2
            | some d => bumpCount (stInsert (xattrSet fs st2 filePath xn d) d filePath)
        else
          let st1 := recordHashCall st filePath
          match hashFile fs filePath cfg.hashAlgo with
          | none => addLog st1
          | some d => bumpCount (stInsert (xattrSet fs st1 filePath xn d) d filePath)
      else
        let st1 := recordHashCall st filePath
        match hashFile fs filePath cfg.hashAlgo with
        | none => addLog st1
        | some d => bumpCount (stInsert st1 d filePath)

/-- Models `filepath.Base` (Unix paths): empty path gives `"."`,
trailing slashes are stripped, the last component is taken, and a path
of only slashes gives `"/"`. -/
def goBase (p : Str) : Str :=
  if p = [] then ['.']
  else
    let q := (p.reverse.dropWhile (fun c => c = '/')).reverse
    let b := (q.reverse.takeWhile (fun c => c ≠ '/')).reverse
    if b = [] then ['/'] else b

/-- The walker callback's three possible outcomes: `nil` (continue),
`filepath.SkipDir`, or a non-nil error (which makes `WalkDir` stop). -/
inductive WalkRet where
  | cont : WalkRet
  | skipDir : WalkRet
  | abort : WalkRet
  deriving DecidableEq

/-- Models the macOS housekeeping check
`info.Name() == ".DS_Store" || info.Name() == "Icon\r"`. -/
def skipEntryName (nm : Str) : Bool :=
  nm == ".DS_Store".toList || nm == "Icon\r".toList

/-- Models the closure passed to `filepath.WalkDir` inside
`walkAndProcess`: a non-nil `err` is logged and the entry skipped; a
failing `d.Info()` returns the error (aborting the walk of this root);
housekeeping names are skipped; a directory other than the root is
pruned with `SkipDir` when not recursive; a symlink is ignored unless
`followLinks`, in which case it is resolved and re-stat'ed and only a
non-directory target is processed, under the resolved path; any other
entry is processed as a file. -/
def walkerStep (fs : FS) (cfg : Config) (root walkerPath : Str) (nm : Str)
    (n : FNode) (st : RunState) : RunState × WalkRet :=
  match n with
  | FNode.errAccess => (addLog st, WalkRet.cont)
  | FNode.errInfo => (st, WalkRet.abort)
  | FNode.dir _ =>
    if skipEntryName nm then (st, WalkRet.cont)
    else if !cfg.recursive && walkerPath ≠ root then (st, WalkRet.skipDir)
    else (st, WalkRet.cont)
  | FNode.symlink =>
    if skipEntryName nm then (st, WalkRet.cont)
    else if cfg.followLinks then
      match fs.resolve walkerPath with
      | none => (addLog st, WalkRet.cont)
      | some resolvedPath =>
        match fs.stat resolvedPath with
        | none => (addLog st, WalkRet.cont)
        | some resolvedInfo =>
          if resolvedInfo.isDir then (st, WalkRet.cont)
          else (processOneFile fs cfg resolvedPath st, WalkRet.cont)
    else (st, WalkRet.cont)
  | FNode.file =>
    if skipEntryName nm then (st, WalkRet.cont)
    else (processOneFile fs cfg walkerPath st, WalkRet.cont)

mutual
/-- Models `filepath.WalkDir` on one node: invoke the walker; on an
error result stop the whole walk (`true` in the second component); on
`SkipDir` or a leaf do nothing more; on a directory visit the children
in order. -/
def walkDirNode (fs : FS) (cfg : Config) (root : Str) (walkerPath : Str)
    (nm : Str) (n : FNode) (st : RunState) : RunState × Bool :=
  match walkerStep fs cfg root walkerPath nm n st with
  | (st1, WalkRet.abort) => (st1, true)
  | (st1, WalkRet.skipDir) => (st1, false)
  | (st1, WalkRet.cont) =>
    match n with
    | FNode.dir entries => walkChildren fs cfg root walkerPath entries st1
    | _ => (st1, false)

/-- Walk the entries of a directory in order; a child aborting the walk
stops the iteration and propagates. -/
def walkChildren (fs : FS) (cfg : Config) (root : Str) (dirPath : Str)
    (l : List (Str × FNode)) (st : RunState) : RunState × Bool :=
  match l with
  | [] => (st, false)
  | (nm, c) :: rest =>
    match walkDirNode fs cfg root (dirPath ++ '/' :: nm) nm c st with
    | (st1, true) => (st1, true)
    | (st1, false) => walkChildren fs cfg root dirPath rest st1
end

/-- Models `walkAndProcess`: run `filepath.WalkDir` from `path` and
discard its error result. -/
def walkAndProcess (fs : FS) (cfg : Config) (path : Str) (st : RunState) : RunState :=
  (walkDirNode fs cfg path path (goBase path) (fs.tree path) st).1

/-- Models one iteration of `main`'s root-path loop: `os.Lstat` the
argument (on failure log and move on); a symlink is skipped unless
`followLinks`, in which case it is resolved and re-stat'ed and the
resolved path takes its place; finally a directory is walked and
anything else is processed as a single file. -/
def processRoot (fs : FS) (cfg : Config) (st : RunState) (path : Str) : RunState :=
  match fs.lstat path with
  | none => addLog st
  | some info =>
    if info.isSymlink then
      if cfg.followLinks then
        match fs.resolve path with
        | none => addLog st
        | some resolvedPath =>
          match fs.stat resolvedPath with
          | none => addLog st
          | some rinfo =>
            if rinfo.isDir then walkAndProcess fs cfg resolvedPath st
            else processOneFile fs cfg resolvedPath st
      else st
    else if info.isDir then walkAndProcess fs cfg path st
    else processOneFile fs cfg path st

/-- The state a run starts from: empty index and journals, counter at
zero, and the extended attributes present on disk. -/
def initState (fs : FS) : RunState :=
  { filesByHash := [], fileCount := 0, xattrs := fs.xattrInit,
    inserted := [], hashCalls := [], xattrReads := [], xattrWrites := [],
    logs := 0 }

/-- Exit status together with the final run state. -/
structure MainResult where
  exitCode : Nat
  state : RunState
  deriving DecidableEq

/-- Models `main`'s processing phase: with no positional arguments the
usage message is printed and the process exits with status 1; otherwise
every root path is processed in order and the process exits with
status 0 (no other `os.Exit` call exists on this path). -/
def runMain (fs : FS) (cfg : Config) (roots : List Str) : MainResult :=
  if roots = [] then { exitCode := 1, state := initState fs }
  else { exitCode := 0, state := roots.foldl (processRoot fs cfg) (initState fs) }

/-- Comparison underlying `sort.Slice` in the duplicates report: by
path length first, then by basename length (the non-strict form of the
source's `less` closure). -/
def keyLE (p q : Str) : Prop :=
  p.length < q.length ∨ (p.length = q.length ∧ (goBase p).length ≤ (goBase q).length)

instance : DecidableRel keyLE := fun p q =>
  inferInstanceAs (Decidable (p.length < q.length ∨
    (p.length = q.length ∧ (goBase p).length ≤ (goBase q).length)))

instance : IsTotal Str keyLE where
  total p q := by
    unfold keyLE
    rcases Nat.lt_trichotomy p.length q.length with h | h | h
    · exact Or.inl (Or.inl h)
    · rcases Nat.le_total (goBase p).length (goBase q).length with h2 | h2
      · exact Or.inl (Or.inr ⟨h, h2⟩)
      · exact Or.inr (Or.inr ⟨h.symm, h2⟩)
    · exact Or.inr (Or.inl h)

instance : IsTrans Str keyLE where
  trans p q r hpq hqr := by
    unfold keyLE at hpq hqr ⊢
    rcases hpq with h1 | ⟨h1, h1b⟩ <;> rcases hqr with h2 | ⟨h2, h2b⟩
    · exact Or.inl (h1.trans h2)
    · exact Or.inl (h2 ▸ h1)
    · exact Or.inl (h1 ▸ h2)
    · exact Or.inr ⟨h1.trans h2, h1b.trans h2b⟩

/-- The sort applied to a duplicate group (models `sort.Slice` with the
source's comparator; `sort.Slice` promises some order consistent with
the comparator, and insertion sort is one such order). -/
def sortGroup (paths : List Str) : List Str := List.insertionSort keyLE paths

/-- Models the `shortestPaths` computation: every member whose path
length and basename length equal those of the first (after sorting:
minimal) member. -/
def shortestPathsOf (paths : List Str) : List Str :=
  match paths with
  | [] => []
  | p0 :: _ =>
    paths.filter
      (fun p => p.length == p0.length && (goBase p).length == (goBase p0).length)

/-- Models `strings.TrimPrefix(p, "./")`. -/
def trimDotSlash (p : Str) : Str :=
  if List.isPrefixOf "./".toList p then p.drop 2 else p

/-- Models the per-group printing loop of the `-d` report: sort the
bucket, compute the candidate representative set, then print each
member (trimmed when `noDot`), with a marker when the candidate set is
tied and the displayed path matches a candidate, omitted when the
candidate set is a singleton and the displayed path matches it, and
plainly otherwise.  The result is the list of printed (path, marked)
lines. -/
def renderGroup (noDot : Bool) (paths : List Str) : List (Str × Bool) :=
  let sorted := sortGroup paths
  let sp := shortestPathsOf sorted
  sorted.filterMap (fun p =>
    let pd := if noDot then trimDotSlash p else p
    let isShort := sp.contains pd
    if 1 < sp.length ∧ isShort = true then some (pd, true)
    else if sp.length = 1 ∧ isShort = true then none
    else some (pd, false))

/-- The index determined by a journal of insertion events. -/
def buildIndex (evs : List (Str × Str)) : Index :=
  evs.foldl (fun ix e => insertIndex ix e.1 e.2) []

/-- Occurrences of one path in a list of paths. -/
def countOcc (p : Str) : List Str → Nat
  | [] => 0
  | q :: rest => (if q = p then 1 else 0) + countOcc p rest

/-- Total number of occurrences of a path across every bucket of the
index: the quantity the at-most-once invariant bounds. -/
def pathCount (ix : Index) (p : Str) : Nat :=
  (ix.map (fun b => countOcc p b.2)).sum

/-- The run invariant tying the global map to the journal of insertion
events: `filesByHash` is exactly the index built from the events. -/
def IndexInv (st : RunState) : Prop := st.filesByHash = buildIndex st.inserted

/-- A filesystem with nothing in it, used as the base of the concrete
scenarios below. -/
def emptyFS : FS :=
  { lstat := fun _ => none, stat := fun _ => none, resolve := fun _ => none,
    content := fun _ => none, tree := fun _ => FNode.errAccess,
    xattrInit := [], xattrSetOk := fun _ _ => false, digest := fun _ _ => [] }

/-- Default behavioural options: `sha256`, nothing else switched on. -/
def cfgPlain : Config :=
  { hashAlgo := "sha256".toList, recursive := false, followLinks := false,
    storeXattr := false, recreateXattr := false }

/-- A zero-sized regular file named `z`. -/
def fsZ : FS :=
  { emptyFS with
    lstat := fun q => if q = "z".toList then some ⟨0, false, false⟩ else none,
    stat := fun q => if q = "z".toList then some ⟨0, false, false⟩ else none }

/-- Options selecting the unsupported algorithm name `foo`. -/
def cfgFoo : Config := { cfgPlain with hashAlgo := "foo".toList }

/-- A zero-sized file `z` and a one-byte file `f`. -/
def fsC1 : FS :=
  { emptyFS with
    lstat := fun q =>
      if q = "z".toList then some ⟨0, false, false⟩
      else if q = "f".toList then some ⟨1, false, false⟩ else none,
    stat := fun q =>
      if q = "z".toList then some ⟨0, false, false⟩
      else if q = "f".toList then some ⟨1, false, false⟩ else none,
    content := fun q => if q = "f".toList then some [65] else none }

/-- A one-byte file `f` whose digest bytes are `[171]` (hex `ab`) and on
which extended-attribute writes succeed. -/
def fsX : FS :=
  { emptyFS with
    stat := fun q => if q = "f".toList then some ⟨1, false, false⟩ else none,
    content := fun q => if q = "f".toList then some [65] else none,
    xattrSetOk := fun _ _ => true,
    digest := fun _ _ => [171] }

/-- Options with the use-cache-then-store policy (`-X`). -/
def cfgStore : Config := { cfgPlain with storeXattr := true }

/-- Options with both cache flags requested (`-X -Y`), where the
always-recreate policy must win. -/
def cfgBoth : Config := { cfgPlain with storeXattr := true, recreateXattr := true }

/-- Options with symlink following (`-l`). -/
def cfgFollow : Config := { cfgPlain with followLinks := true }

/-- A root argument `ln` that is a symlink resolving to the directory
`d`, which contains the zero-sized regular file `f`. -/
def fsC7 : FS :=
  { emptyFS with
    lstat := fun q => if q = "ln".toList then some ⟨0, false, true⟩ else none,
    resolve := fun q => if q = "ln".toList then some "d".toList else none,
    stat := fun q =>
      if q = "d".toList then some ⟨0, true, false⟩
      else if q = "d/f".toList then some ⟨0, false, false⟩ else none,
    tree := fun q =>
      if q = "d".toList then FNode.dir [("f".toList, FNode.file)]
      else FNode.errAccess }

/-- A symlink entry `d/l` resolving to the zero-sized regular file `t`. -/
def fsW7 : FS :=
  { emptyFS with
    resolve := fun q => if q = "d/l".toList then some "t".toList else none,
    stat := fun q => if q = "t".toList then some ⟨0, false, false⟩ else none }

/-- A directory `d` whose first entry `a` fails `d.Info()` and whose
second entry `b` is a zero-sized regular file. -/
def fsC8 : FS :=
  { emptyFS with
    lstat := fun q => if q = "d".toList then some ⟨0, true, false⟩ else none,
    stat := fun q =>
      if q = "d/b".toList then some ⟨0, false, false⟩
      else if q = "u".toList then some ⟨5, false, false⟩ else none,
    tree := fun q =>
      if q = "d".toList then
        FNode.dir [("a".toList, FNode.errInfo), ("b".toList, FNode.file)]
      else FNode.errAccess }

/-- A starting state over `fsX` carrying a pre-existing stale attribute
value for `f` under the configured algorithm. -/
def stStale : RunState :=
  { initState fsX with
    xattrs := [(("f".toList, xattrNameOf "sha256".toList), "stale".toList)] }

/-- A one-byte file `f` with a digest oracle returning 32 bytes of `7`
for shake128 and 64 bytes of `7` for every other algorithm. -/
def fsShake : FS :=
  { emptyFS with
    content := fun q => if q = "f".toList then some [1] else none,
    digest := fun a _ =>
      if lowerStr a = "shake128".toList then List.replicate 32 7
      else List.replicate 64 7 }

theorem countOcc_append (p : Str) (l m : List Str) :
    countOcc p (l ++ m) = countOcc p l + countOcc p m := by
  induction l with
  | nil => simp [countOcc]
  | cons q rest ih => simp [countOcc, ih]; omega

theorem countOcc_eq_zero_of_not_mem {p : Str} {l : List Str} (h : p ∉ l) :
    countOcc p l = 0 := by
  induction l with
  | nil => rfl
  | cons q rest ih =>
    have hq : q ≠ p := fun e => h (e ▸ List.mem_cons_self q rest)
    have hrest : p ∉ rest := fun e => h (List.mem_cons_of_mem q e)
    simp [countOcc, hq, ih hrest]

theorem nodup_countOcc_le_one {l : List Str} (h : l.Nodup) (p : Str) :
    countOcc p l ≤ 1 := by
  induction l with
  | nil => simp [countOcc]
  | cons q rest ih =>
    rcases List.nodup_cons.mp h with ⟨hq, hrest⟩
    by_cases hqp : q = p
    · subst hqp
      simp [countOcc, countOcc_eq_zero_of_not_mem hq]
    · simpa [countOcc, hqp] using ih hrest

theorem pathCount_insertIndex (ix : Index) (k p q : Str) :
    pathCount (insertIndex ix k p) q =
      pathCount ix q + (if p = q then 1 else 0) := by
  induction ix with
  | nil => simp [insertIndex, pathCount, countOcc]
  | cons b rest ih =>
    rcases b with ⟨k0, ps⟩
    by_cases hk : k0 = k
    · simp [insertIndex, hk, pathCount, countOcc_append, countOcc]
      omega
    · simp [insertIndex, hk, pathCount] at ih ⊢
      omega

theorem pathCount_foldl (evs : List (Str × Str)) (ix : Index) (q : Str) :
    pathCount (evs.foldl (fun ix e => insertIndex ix e.1 e.2) ix) q =
      pathCount ix q + countOcc q (evs.map Prod.snd) := by
  induction evs generalizing ix with
  | nil => simp [countOcc]
  | cons e rest ih =>
    simp only [List.foldl_cons, List.map_cons, countOcc]
    rw [ih, pathCount_insertIndex]
    omega

theorem pathCount_buildIndex (evs : List (Str × Str)) (q : Str) :
    pathCount (buildIndex evs) q = countOcc q (evs.map Prod.snd) := by
  simpa [buildIndex, pathCount] using pathCount_foldl evs [] q

theorem buildIndex_snoc (evs : List (Str × Str)) (k p : Str) :
    buildIndex (evs ++ [(k, p)]) = insertIndex (buildIndex evs) k p := by
  simp [buildIndex, List.foldl_append]

theorem inv_stInsert {st : RunState} (h : IndexInv st) (k p : Str) :
    IndexInv (stInsert st k p) := by
  unfold IndexInv at h ⊢
  simp [stInsert, buildIndex_snoc, h]

theorem inv_bumpCount {st : RunState} (h : IndexInv st) : IndexInv (bumpCount st) := h

theorem inv_addLog {st : RunState} (h : IndexInv st) : IndexInv (addLog st) := h

theorem inv_recordHashCall {st : RunState} (h : IndexInv st) (p : Str) :
    IndexInv (recordHashCall st p) := h

theorem inv_recordXattrRead {st : RunState} (h : IndexInv st) (p n : Str) :
    IndexInv (recordXattrRead st p n) := h

theorem inv_xattrSet {st : RunState} (h : IndexInv st) (fs : FS) (p n v : Str) :
    IndexInv (xattrSet fs st p n v) := by
  unfold IndexInv at h ⊢
  unfold xattrSet addLog
  split <;> simpa using h

theorem inv_processOneFile {st : RunState} (h : IndexInv st) (fs : FS)
    (cfg : Config) (p : Str) : IndexInv (processOneFile fs cfg p st) := by
  unfold processOneFile
  cases fs.stat p with
  | none => exact inv_bumpCount (inv_addLog h)
  | some info =>
    by_cases hz : info.size = 0
    · simpa [hz] using inv_bumpCount (inv_stInsert h _ _)
    · simp only [hz, if_neg, if_false]
      split
      · split
        · cases lookupAssoc st.xattrs p (xattrNameOf cfg.hashAlgo) with
          | some v => exact inv_bumpCount (inv_stInsert (inv_recordXattrRead h _ _) _ _)
          | none =>
            cases hashFile fs p cfg.hashAlgo with
            | none => exact inv_addLog (inv_recordHashCall (inv_recordXattrRead h _ _) _)
            | some d =>
              exact inv_bumpCount (inv_stInsert
                (inv_xattrSet (inv_recordHashCall (inv_recordXattrRead h _ _) _) fs _ _ _) _ _)
        · cases hashFile fs p cfg.hashAlgo with
          | none => exact inv_addLog (inv_recordHashCall h _)
          | some d =>
            exact inv_bumpCount (inv_stInsert
              (inv_xattrSet (inv_recordHashCall h _) fs _ _ _) _ _)
      · cases hashFile fs p cfg.hashAlgo with
        | none => exact inv_addLog (inv_recordHashCall h _)
        | some d => exact inv_bumpCount (inv_stInsert (inv_recordHashCall h _) _ _)

theorem inv_walkerStep {st : RunState} (h : IndexInv st) (fs : FS) (cfg : Config)
    (root wp nm : Str) (n : FNode) :
    IndexInv (walkerStep fs cfg root wp nm n st).1 := by
  unfold walkerStep
  cases n with
  | errAccess => exact inv_addLog h
  | errInfo => exact h
  | dir entries => dsimp only; split <;> [exact h; (split <;> exact h)]
  | file => dsimp only; split <;> [exact h; exact inv_processOneFile h fs cfg wp]
  | symlink =>
    dsimp only
    split
    · exact h
    · split
      · rcases hr : fs.resolve wp with _ | rp
        · simpa [hr] using inv_addLog h
        · rcases hs : fs.stat rp with _ | ri
          · simpa [hr, hs] using inv_addLog h
          · by_cases hd : ri.isDir = true
            · simpa [hr, hs, hd] using h
            · simpa [hr, hs, hd] using inv_processOneFile h fs cfg rp
      · exact h

mutual
theorem inv_walkDirNode {st : RunState} (h : IndexInv st) (fs : FS) (cfg : Config)
    (root wp nm : Str) (n : FNode) :
    IndexInv (walkDirNode fs cfg root wp nm n st).1 := by
  rw [walkDirNode.eq_def]
  rcases hs : walkerStep fs cfg root wp nm n st with ⟨st1, r⟩
  have h1 : IndexInv st1 := by
    have := inv_walkerStep h fs cfg root wp nm n
    rwa [hs] at this
  cases r with
  | abort => simpa
  | skipDir => simpa
  | cont =>
    cases n with
    | dir entries => simpa using inv_walkChildren h1 fs cfg root wp entries
    | file => simpa
    | symlink => simpa
    | errInfo => simpa
    | errAccess => simpa

theorem inv_walkChildren {st : RunState} (h : IndexInv st) (fs : FS) (cfg : Config)
    (root dp : Str) (l : List (Str × FNode)) :
    IndexInv (walkChildren fs cfg root dp l st).1 := by
  match l with
  | [] => simpa [walkChildren.eq_def]
  | (nm, c) :: rest =>
    rw [walkChildren.eq_def]
    rcases hw : walkDirNode fs cfg root (dp ++ '/' :: nm) nm c st with ⟨st1, b⟩
    have h1 : IndexInv st1 := by
      have := inv_walkDirNode h fs cfg root (dp ++ '/' :: nm) nm c
      rwa [hw] at this
    simp only [hw]
    cases b with
    | true => simpa
    | false => simpa using inv_walkChildren h1 fs cfg root dp rest
end

theorem inv_processRoot {st : RunState} (h : IndexInv st) (fs : FS) (cfg : Config)
    (p : Str) : IndexInv (processRoot fs cfg st p) := by
  unfold processRoot walkAndProcess
  rcases hl : fs.lstat p with _ | info
  · exact inv_addLog h
  · dsimp only
    by_cases hsym : info.isSymlink = true
    · simp only [hsym, if_true]
      by_cases hf : cfg.followLinks = true
      · simp only [hf, if_true]
        rcases hr : fs.resolve p with _ | rp
        · exact inv_addLog h
        · rcases hs : fs.stat rp with _ | ri
          · simpa [hs] using inv_addLog h
          · by_cases hd : ri.isDir = true
            · simpa [hs, hd] using inv_walkDirNode h fs cfg rp rp _ _
            · simpa [hs, hd] using inv_processOneFile h fs cfg rp
      · simp only [hf, if_false]
        exact h
    · simp only [hsym, if_false]
      by_cases hd : info.isDir = true
      · simpa [hd] using inv_walkDirNode h fs cfg p p _ _
      · simpa [hd] using inv_processOneFile h fs cfg p

theorem inv_foldlRoots {st : RunState} (h : IndexInv st) (fs : FS) (cfg : Config)
    (roots : List Str) : IndexInv (roots.foldl (processRoot fs cfg) st) := by
  induction roots generalizing st with
  | nil => exact h
  | cons r rest ih =>
    simp only [List.foldl_cons]
    exact ih (inv_processRoot h fs cfg r)

theorem inv_runMain (fs : FS) (cfg : Config) (roots : List Str) :
    IndexInv (runMain fs cfg roots).state := by
  have h0 : IndexInv (initState fs) := rfl
  unfold runMain
  split
  · exact h0
  · exact inv_foldlRoots h0 fs cfg roots

theorem lookupAssoc_setAssoc_self (m : List ((Str × Str) × Str)) (p n v : Str) :
    lookupAssoc (setAssoc m p n v) p n = some v := by
  induction m with
  | nil => simp [setAssoc, lookupAssoc]
  | cons e rest ih =>
    rcases e with ⟨k, v0⟩
    by_cases hk : k = (p, n)
    · simp [setAssoc, hk, lookupAssoc]
    · simp [setAssoc, hk, lookupAssoc, ih]

/-- C4: a regular file that stats to size 0 is placed in the
`0-byte-file` sentinel bucket, whatever algorithm is configured, and
processing it performs no `hashFile` call (no file open), no `xattr.Get`
and no `xattr.Set`, and leaves the attribute store untouched. -/
theorem c4_zero_length_sentinel (fs : FS) (cfg : Config) (p : Str) (st : RunState)
    (info : FileInfo) (hstat : fs.stat p = some info) (hsz : info.size = 0) :
    processOneFile fs cfg p st = bumpCount (stInsert st zeroKey p) ∧
    (processOneFile fs cfg p st).filesByHash = insertIndex st.filesByHash zeroKey p ∧
    (processOneFile fs cfg p st).hashCalls = st.hashCalls ∧
    (processOneFile fs cfg p st).xattrReads = st.xattrReads ∧
    (processOneFile fs cfg p st).xattrWrites = st.xattrWrites ∧
    (processOneFile fs cfg p st).xattrs = st.xattrs := by
  have h1 : processOneFile fs cfg p st = bumpCount (stInsert st zeroKey p) := by
    simp [processOneFile, hstat, hsz]
  exact ⟨h1, by simp [h1, bumpCount, stInsert], by simp [h1, bumpCount, stInsert],
    by simp [h1, bumpCount, stInsert], by simp [h1, bumpCount, stInsert],
    by simp [h1, bumpCount, stInsert]⟩

/-- Closed instance of `c4_zero_length_sentinel` on the zero-sized file
`z` of `fsZ`. -/
theorem c4_zero_length_sentinel_witness :
    fsZ.stat "z".toList = some ⟨0, false, false⟩ ∧
    processOneFile fsZ cfgPlain "z".toList (initState fsZ) =
      bumpCount (stInsert (initState fsZ) zeroKey "z".toList) :=
  ⟨by decide,
   (c4_zero_length_sentinel fsZ cfgPlain "z".toList (initState fsZ)
      ⟨0, false, false⟩ (by decide) (by decide)).1⟩

/-- C5: under the use-cache-then-store policy (`storeXattr` set,
`recreateXattr` unset) on a non-zero-sized file: a readable attribute is
used verbatim as the digest, with no hash computation, no attribute
write and no change to the attribute store; on a miss the digest is
computed and written back, an attribute-write failure only adds a log
line and the digest is inserted regardless, and after a successful
write-back a second run on the unmodified file is a cache hit that
returns the same digest and leaves the stored value unchanged. -/
theorem c5_use_cache_then_store (fs : FS) (cfg : Config) (p : Str) (st : RunState)
    (info : FileInfo)
    (hS : cfg.storeXattr = true) (hR : cfg.recreateXattr = false)
    (hstat : fs.stat p = some info) (hsz : info.size ≠ 0) :
    (∀ v, lookupAssoc st.xattrs p (xattrNameOf cfg.hashAlgo) = some v →
      processOneFile fs cfg p st =
        bumpCount (stInsert (recordXattrRead st p (xattrNameOf cfg.hashAlgo)) v p) ∧
      (processOneFile fs cfg p st).hashCalls = st.hashCalls ∧
      (processOneFile fs cfg p st).xattrWrites = st.xattrWrites ∧
      (processOneFile fs cfg p st).xattrs = st.xattrs ∧
      (processOneFile fs cfg p st).inserted = st.inserted ++ [(v, p)]) ∧
    (∀ d, lookupAssoc st.xattrs p (xattrNameOf cfg.hashAlgo) = none →
      hashFile fs p cfg.hashAlgo = some d →
      processOneFile fs cfg p st =
        bumpCount (stInsert
          (xattrSet fs (recordHashCall (recordXattrRead st p (xattrNameOf cfg.hashAlgo)) p)
            p (xattrNameOf cfg.hashAlgo) d) d p) ∧
      (processOneFile fs cfg p st).inserted = st.inserted ++ [(d, p)] ∧
      (fs.xattrSetOk p (xattrNameOf cfg.hashAlgo) = false →
        (processOneFile fs cfg p st).xattrs = st.xattrs ∧
        (processOneFile fs cfg p st).logs = st.logs + 1) ∧
      (fs.xattrSetOk p (xattrNameOf cfg.hashAlgo) = true →
        (processOneFile fs cfg p st).xattrs =
          setAssoc st.xattrs p (xattrNameOf cfg.hashAlgo) d ∧
        lookupAssoc (processOneFile fs cfg p st).xattrs p (xattrNameOf cfg.hashAlgo) =
          some d ∧
        processOneFile fs cfg p (processOneFile fs cfg p st) =
          bumpCount (stInsert
            (recordXattrRead (processOneFile fs cfg p st) p (xattrNameOf cfg.hashAlgo))
            d p) ∧
        (processOneFile fs cfg p (processOneFile fs cfg p st)).xattrs =
          (processOneFile fs cfg p st).xattrs)) := by
  constructor
  · intro v hlook
    have h1 : processOneFile fs cfg p st =
        bumpCount (stInsert (recordXattrRead st p (xattrNameOf cfg.hashAlgo)) v p) := by
      simp [processOneFile, hstat, hsz, hS, hR, hlook]
    exact ⟨h1, by simp [h1, bumpCount, stInsert, recordXattrRead],
      by simp [h1, bumpCount, stInsert, recordXattrRead],
      by simp [h1, bumpCount, stInsert, recordXattrRead],
      by simp [h1, bumpCount, stInsert, recordXattrRead]⟩
  · intro d hlook hh
    have h1 : processOneFile fs cfg p st =
        bumpCount (stInsert
          (xattrSet fs (recordHashCall (recordXattrRead st p (xattrNameOf cfg.hashAlgo)) p)
            p (xattrNameOf cfg.hashAlgo) d) d p) := by
      simp [processOneFile, hstat, hsz, hS, hR, hlook, hh]
    refine ⟨h1, ?_, ?_, ?_⟩
    · simp [h1, bumpCount, stInsert, recordXattrRead, recordHashCall, xattrSet, addLog]
      split <;> rfl
    · intro hw
      constructor
      · simp [h1, bumpCount, stInsert, recordXattrRead, recordHashCall, xattrSet, addLog, hw]
      · simp [h1, bumpCount, stInsert, recordXattrRead, recordHashCall, xattrSet, addLog, hw]
    · intro hw
      have hx1 : (processOneFile fs cfg p st).xattrs =
          setAssoc st.xattrs p (xattrNameOf cfg.hashAlgo) d := by
        simp [h1, bumpCount, stInsert, recordXattrRead, recordHashCall, xattrSet, hw]
      have hl2 : lookupAssoc (processOneFile fs cfg p st).xattrs p
          (xattrNameOf cfg.hashAlgo) = some d := by
        rw [hx1]; exact lookupAssoc_setAssoc_self _ _ _ _
      have h2 : processOneFile fs cfg p (processOneFile fs cfg p st) =
          bumpCount (stInsert
            (recordXattrRead (processOneFile fs cfg p st) p (xattrNameOf cfg.hashAlgo))
            d p) := by
        generalize processOneFile fs cfg p st = st1 at hl2 ⊢
        simp [processOneFile, hstat, hsz, hS, hR, hl2]
      refine ⟨hx1, hl2, h2, ?_⟩
      simp [h2, bumpCount, stInsert, recordXattrRead]

/-- Closed instance of `c5_use_cache_then_store` on `fsX`: a first run
misses the (empty) cache, computes digest `ab` and stores it; the second
run hits the cache with the same value. -/
theorem c5_use_cache_then_store_witness :
    lookupAssoc (initState fsX).xattrs "f".toList (xattrNameOf cfgStore.hashAlgo) = none ∧
    hashFile fsX "f".toList cfgStore.hashAlgo = some "ab".toList ∧
    lookupAssoc (processOneFile fsX cfgStore "f".toList (initState fsX)).xattrs
      "f".toList (xattrNameOf cfgStore.hashAlgo) = some "ab".toList :=
  ⟨by decide, by decide,
   ((((c5_use_cache_then_store fsX cfgStore "f".toList (initState fsX) ⟨1, false, false⟩
        (by decide) (by decide) (by decide) (by decide)).2
      "ab".toList (by decide) (by decide)).2.2.2) (by decide)).2.1⟩

/-- C6: under the always-recreate policy (`recreateXattr` set, the
`storeXattr` flag arbitrary — so also when both are requested, the
recreate branch wins) on a non-zero-sized file the digest is freshly
computed (the cache is never read) and an attribute write of the new
digest is always attempted; when the write succeeds the stored value is
the new digest, overwriting any pre-existing value. -/
theorem c6_always_recreate (fs : FS) (cfg : Config) (p : Str) (st : RunState)
    (info : FileInfo) (d : Str)
    (hR : cfg.recreateXattr = true)
    (hstat : fs.stat p = some info) (hsz : info.size ≠ 0)
    (hh : hashFile fs p cfg.hashAlgo = some d) :
    processOneFile fs cfg p st =
      bumpCount (stInsert
        (xattrSet fs (recordHashCall st p) p (xattrNameOf cfg.hashAlgo) d) d p) ∧
    (processOneFile fs cfg p st).xattrReads = st.xattrReads ∧
    (processOneFile fs cfg p st).hashCalls = st.hashCalls ++ [p] ∧
    (processOneFile fs cfg p st).xattrWrites =
      st.xattrWrites ++ [(p, xattrNameOf cfg.hashAlgo, d)] ∧
    (fs.xattrSetOk p (xattrNameOf cfg.hashAlgo) = true →
      (processOneFile fs cfg p st).xattrs =
        setAssoc st.xattrs p (xattrNameOf cfg.hashAlgo) d ∧
      lookupAssoc (processOneFile fs cfg p st).xattrs p (xattrNameOf cfg.hashAlgo) =
        some d) := by
  have h1 : processOneFile fs cfg p st =
      bumpCount (stInsert
        (xattrSet fs (recordHashCall st p) p (xattrNameOf cfg.hashAlgo) d) d p) := by
    simp [processOneFile, hstat, hsz, hR, hh]
  refine ⟨h1, ?_, ?_, ?_, ?_⟩
  · simp [h1, bumpCount, stInsert, recordHashCall, xattrSet, addLog]
    split <;> rfl
  · simp [h1, bumpCount, stInsert, recordHashCall, xattrSet, addLog]
    split <;> rfl
  · simp [h1, bumpCount, stInsert, recordHashCall, xattrSet, addLog]
    split <;> rfl
  · intro hw
    have hx : (processOneFile fs cfg p st).xattrs =
        setAssoc st.xattrs p (xattrNameOf cfg.hashAlgo) d := by
      simp [h1, bumpCount, stInsert, recordHashCall, xattrSet, hw]
    exact ⟨hx, by rw [hx]; exact lookupAssoc_setAssoc_self _ _ _ _⟩

/-- Closed instance of `c6_always_recreate` on `fsX` with both cache
flags set and a pre-existing stale attribute value, which is
overwritten by the freshly computed digest `ab`. -/
theorem c6_always_recreate_witness :
    lookupAssoc stStale.xattrs "f".toList (xattrNameOf cfgBoth.hashAlgo) =
      some "stale".toList ∧
    lookupAssoc (processOneFile fsX cfgBoth "f".toList stStale).xattrs "f".toList
      (xattrNameOf cfgBoth.hashAlgo) = some "ab".toList :=
  ⟨by decide,
   ((c6_always_recreate fsX cfgBoth "f".toList stStale ⟨1, false, false⟩ "ab".toList
      (by decide) (by decide) (by decide) (by decide)).2.2.2.2 (by decide)).2⟩

/-- C1 (amended): an unsupported algorithm name is not detected up
front — the run proceeds and exits with status 0 whenever at least one
root path is supplied; the failure only surfaces per file, when hashing
is attempted: `hashFile` fails, the error is logged, and the file is
skipped (with no cache flags, processing it leaves only a hash-call
record and one log line — no insertion and no count). -/
theorem c1_unsupported_algo_fails_per_file (fs : FS) (cfg : Config)
    (roots : List Str) (st : RunState) (p : Str) (info : FileInfo)
    (halgo : getHashOk cfg.hashAlgo = false)
    (hS : cfg.storeXattr = false) (hR : cfg.recreateXattr = false)
    (hstat : fs.stat p = some info) (hsz : info.size ≠ 0)
    (hroots : roots ≠ []) :
    (runMain fs cfg roots).exitCode = 0 ∧
    hashFile fs p cfg.hashAlgo = none ∧
    processOneFile fs cfg p st = addLog (recordHashCall st p) := by
  refine ⟨?_, ?_, ?_⟩
  · simp [runMain, hroots]
  · simp [hashFile, halgo]
  · have hh : hashFile fs p cfg.hashAlgo = none := by simp [hashFile, halgo]
    simp [processOneFile, hstat, hsz, hS, hR, hh]

/-- Closed instance of `c1_unsupported_algo_fails_per_file`: algorithm
`foo`, roots `z` (zero-sized) and `f` (one byte). -/
theorem c1_unsupported_algo_fails_per_file_witness :
    getHashOk cfgFoo.hashAlgo = false ∧
    (runMain fsC1 cfgFoo ["z".toList, "f".toList]).exitCode = 0 ∧
    hashFile fsC1 "f".toList cfgFoo.hashAlgo = none ∧
    processOneFile fsC1 cfgFoo "f".toList (initState fsC1) =
      addLog (recordHashCall (initState fsC1) "f".toList) :=
  ⟨by decide,
   (c1_unsupported_algo_fails_per_file fsC1 cfgFoo ["z".toList, "f".toList]
      (initState fsC1) "f".toList ⟨1, false, false⟩ (by decide) (by decide)
      (by decide) (by decide) (by decide) (by decide)).1,
   (c1_unsupported_algo_fails_per_file fsC1 cfgFoo ["z".toList, "f".toList]
      (initState fsC1) "f".toList ⟨1, false, false⟩ (by decide) (by decide)
      (by decide) (by decide) (by decide) (by decide)).2.1,
   (c1_unsupported_algo_fails_per_file fsC1 cfgFoo ["z".toList, "f".toList]
      (initState fsC1) "f".toList ⟨1, false, false⟩ (by decide) (by decide)
      (by decide) (by decide) (by decide) (by decide)).2.2⟩

/-- C1 refutation: with the unsupported algorithm name `foo` the run
does not fail before traversal and does not exit non-zero: both roots
are stat'ed, the zero-sized file is processed and counted, the hashing
error for the one-byte file is logged mid-run, and the exit status
is 0. -/
theorem c1_counterexample :
    getHashOk "foo".toList = false ∧
    (runMain fsC1 cfgFoo ["z".toList, "f".toList]).exitCode = 0 ∧
    (runMain fsC1 cfgFoo ["z".toList, "f".toList]).state.fileCount = 1 ∧
    (runMain fsC1 cfgFoo ["z".toList, "f".toList]).state.inserted =
      [(zeroKey, "z".toList)] ∧
    (runMain fsC1 cfgFoo ["z".toList, "f".toList]).state.logs = 1 := by
  decide

/-- C2 (amended): whenever the journal of processed-and-inserted paths
of a run has no duplicate entry (in particular, whenever the traversal
reaches every file path at most once), every path occurs at most once
in the whole duplicate index — it cannot occur in two buckets nor twice
in one bucket, since `pathCount` totals its occurrences over all
buckets. -/
theorem c2_path_at_most_once (fs : FS) (cfg : Config) (roots : List Str)
    (h : ((runMain fs cfg roots).state.inserted.map Prod.snd).Nodup) (p : Str) :
    pathCount (runMain fs cfg roots).state.filesByHash p ≤ 1 := by
  have hi := inv_runMain fs cfg roots
  unfold IndexInv at hi
  rw [hi, pathCount_buildIndex]
  exact nodup_countOcc_le_one h p

/-- Closed instance of `c2_path_at_most_once` on a run over the single
zero-sized file `z`. -/
theorem c2_path_at_most_once_witness :
    ((runMain fsZ cfgPlain ["z".toList]).state.inserted.map Prod.snd).Nodup ∧
    pathCount (runMain fsZ cfgPlain ["z".toList]).state.filesByHash "z".toList ≤ 1 :=
  ⟨by decide, c2_path_at_most_once fsZ cfgPlain ["z".toList] (by decide) "z".toList⟩

/-- C2 refutation: passing the same existing file twice as root
arguments inserts its path twice into the same bucket, so a path can
occur twice in the index within one run. -/
theorem c2_counterexample :
    (runMain fsZ cfgPlain ["z".toList, "z".toList]).state.filesByHash =
      [(zeroKey, ["z".toList, "z".toList])] ∧
    pathCount (runMain fsZ cfgPlain ["z".toList, "z".toList]).state.filesByHash
      "z".toList = 2 := by
  decide

/-- C7 (amended): for a symlink entry met during a directory walk, the
walker ignores it when link-following is off; when it is on, the link is
resolved and re-stat'ed, a resolution or stat failure is logged and the
entry skipped, a target that is a directory is skipped without any
descent (the walk of a symlink node performs no recursion), and a
non-directory target is processed under the resolved path, not the link
path.  (A root argument that is a symlink to a directory behaves
differently — see the refutation of the unamended claim.) -/
theorem c7_symlink_entries (fs : FS) (cfg : Config) (root wp nm : Str)
    (st : RunState) (rp : Str) (ri : FileInfo) :
    (cfg.followLinks = false →
      walkDirNode fs cfg root wp nm FNode.symlink st = (st, false)) ∧
    (cfg.followLinks = true → skipEntryName nm = false → fs.resolve wp = none →
      walkDirNode fs cfg root wp nm FNode.symlink st = (addLog st, false)) ∧
    (cfg.followLinks = true → skipEntryName nm = false → fs.resolve wp = some rp →
      fs.stat rp = some ri → ri.isDir = true →
      walkDirNode fs cfg root wp nm FNode.symlink st = (st, false)) ∧
    (cfg.followLinks = true → skipEntryName nm = false → fs.resolve wp = some rp →
      fs.stat rp = some ri → ri.isDir = false →
      walkDirNode fs cfg root wp nm FNode.symlink st =
        (processOneFile fs cfg rp st, false)) := by
  refine ⟨?_, ?_, ?_, ?_⟩
  · intro hf
    by_cases hskip : skipEntryName nm = true <;>
      simp [walkDirNode.eq_def, walkerStep, hf, hskip]
  · intro hf hskip hr
    simp [walkDirNode.eq_def, walkerStep, hf, hskip, hr]
  · intro hf hskip hr hs hd
    simp [walkDirNode.eq_def, walkerStep, hf, hskip, hr, hs, hd]
  · intro hf hskip hr hs hd
    simp [walkDirNode.eq_def, walkerStep, hf, hskip, hr, hs, hd]

/-- Closed instance of `c7_symlink_entries`: the symlink entry `d/l`
resolving to the regular file `t` is processed under the resolved
path `t`. -/
theorem c7_symlink_entries_witness :
    cfgFollow.followLinks = true ∧
    fsW7.resolve "d/l".toList = some "t".toList ∧
    fsW7.stat "t".toList = some ⟨0, false, false⟩ ∧
    walkDirNode fsW7 cfgFollow "d".toList "d/l".toList "l".toList FNode.symlink
      (initState fsW7) =
      (processOneFile fsW7 cfgFollow "t".toList (initState fsW7), false) :=
  ⟨by decide, by decide, by decide,
   (c7_symlink_entries fsW7 cfgFollow "d".toList "d/l".toList "l".toList
      (initState fsW7) "t".toList ⟨0, false, false⟩).2.2.2
     (by decide) (by decide) (by decide) (by decide) (by decide)⟩

/-- C7 refutation: a root argument that is a symlink (`ln`) resolving
to a directory (`d`) is, with link-following enabled, walked like a
directory — the file `d/f` inside it is processed — contradicting the
claim that a symlink resolving to a directory is never descended
into. -/
theorem c7_counterexample :
    fsC7.lstat "ln".toList = some ⟨0, false, true⟩ ∧
    fsC7.resolve "ln".toList = some "d".toList ∧
    (fsC7.stat "d".toList).map FileInfo.isDir = some true ∧
    (runMain fsC7 cfgFollow ["ln".toList]).state.inserted =
      [(zeroKey, "d/f".toList)] ∧
    (runMain fsC7 cfgFollow ["ln".toList]).state.fileCount = 1 := by
  decide

/-- C8 (amended): an entry for which the walk driver reports an access
error (`err != nil`) is logged and only that entry is skipped — its
siblings are still walked; but an entry whose `d.Info()` call fails
makes the walker return the error, which aborts the walk of the rest of
that root (its remaining siblings are not visited) while the main loop
still processes every further root; and a file whose hashing fails is
excluded from the index — nothing is inserted for it, the counter does
not move, and the failure is logged. -/
theorem c8_error_scoping (fs : FS) (cfg : Config) (root dp wp nm : Str)
    (st : RunState) (rest : List (Str × FNode)) (p : Str) (info : FileInfo) :
    (walkDirNode fs cfg root wp nm FNode.errAccess st = (addLog st, false)) ∧
    (walkChildren fs cfg root dp ((nm, FNode.errAccess) :: rest) st =
      walkChildren fs cfg root dp rest (addLog st)) ∧
    (walkChildren fs cfg root dp ((nm, FNode.errInfo) :: rest) st = (st, true)) ∧
    (∀ roots2, (runMain fs cfg (root :: roots2)).state =
      roots2.foldl (processRoot fs cfg) (processRoot fs cfg (initState fs) root)) ∧
    (fs.stat p = some info → info.size ≠ 0 →
      (cfg.storeXattr = true → cfg.recreateXattr = false →
        lookupAssoc st.xattrs p (xattrNameOf cfg.hashAlgo) = none) →
      hashFile fs p cfg.hashAlgo = none →
      (processOneFile fs cfg p st).filesByHash = st.filesByHash ∧
      (processOneFile fs cfg p st).inserted = st.inserted ∧
      (processOneFile fs cfg p st).fileCount = st.fileCount ∧
      (processOneFile fs cfg p st).logs = st.logs + 1) := by
  refine ⟨?_, ?_, ?_, ?_, ?_⟩
  · simp [walkDirNode.eq_def, walkerStep]
  · conv =>
      lhs
      rw [walkChildren.eq_def]
    simp [walkDirNode.eq_def, walkerStep]
  · conv =>
      lhs
      rw [walkChildren.eq_def]
    simp [walkDirNode.eq_def, walkerStep]
  · intro roots2
    simp [runMain]
  · intro hstat hsz hlook hh
    by_cases hS : cfg.storeXattr = true <;> by_cases hR : cfg.recreateXattr = true
    · have h1 : processOneFile fs cfg p st = addLog (recordHashCall st p) := by
        simp [processOneFile, hstat, hsz, hS, hR, hh]
      simp [h1, addLog, recordHashCall]
    · have hR0 : cfg.recreateXattr = false := by
        revert hR; cases cfg.recreateXattr <;> simp
      have h1 : processOneFile fs cfg p st =
          addLog (recordHashCall
            (recordXattrRead st p (xattrNameOf cfg.hashAlgo)) p) := by
        simp [processOneFile, hstat, hsz, hS, hR0, hlook hS hR0, hh]
      simp [h1, addLog, recordHashCall, recordXattrRead]
    · have hS0 : cfg.storeXattr = false := by
        revert hS; cases cfg.storeXattr <;> simp
      have h1 : processOneFile fs cfg p st = addLog (recordHashCall st p) := by
        simp [processOneFile, hstat, hsz, hS0, hR, hh]
      simp [h1, addLog, recordHashCall]
    · have hS0 : cfg.storeXattr = false := by
        revert hS; cases cfg.storeXattr <;> simp
      have hR0 : cfg.recreateXattr = false := by
        revert hR; cases cfg.recreateXattr <;> simp
      have h1 : processOneFile fs cfg p st = addLog (recordHashCall st p) := by
        simp [processOneFile, hstat, hsz, hS0, hR0, hh]
      simp [h1, addLog, recordHashCall]

/-- Closed instance of `c8_error_scoping`: an `errInfo` entry stops the
walk of its directory, and the unreadable one-byte file `u` (no
readable content) is excluded from the index with one log line. -/
theorem c8_error_scoping_witness :
    walkChildren fsC8 cfgPlain "d".toList "d".toList
      [("a".toList, FNode.errInfo), ("b".toList, FNode.file)] (initState fsC8) =
      (initState fsC8, true) ∧
    hashFile fsC8 "u".toList cfgPlain.hashAlgo = none ∧
    (processOneFile fsC8 cfgPlain "u".toList (initState fsC8)).inserted =
      (initState fsC8).inserted ∧
    (processOneFile fsC8 cfgPlain "u".toList (initState fsC8)).logs =
      (initState fsC8).logs + 1 :=
  ⟨(c8_error_scoping fsC8 cfgPlain "d".toList "d".toList "x".toList "a".toList
      (initState fsC8) [("b".toList, FNode.file)] "u".toList
      ⟨5, false, false⟩).2.2.1,
   by decide,
   ((c8_error_scoping fsC8 cfgPlain "d".toList "d".toList "x".toList "a".toList
      (initState fsC8) [("b".toList, FNode.file)] "u".toList ⟨5, false, false⟩).2.2.2.2
      (by decide) (by decide) (by decide) (by decide)).2.1,
   ((c8_error_scoping fsC8 cfgPlain "d".toList "d".toList "x".toList "a".toList
      (initState fsC8) [("b".toList, FNode.file)] "u".toList ⟨5, false, false⟩).2.2.2.2
      (by decide) (by decide) (by decide) (by decide)).2.2.2⟩

/-- C8 refutation: in the directory `d` whose first entry `a` has a
failing `d.Info()`, the walker returns the error and the remaining
entry `b` (a zero-sized file that would have been inserted) is never
visited, so an entry access error does not skip just that entry. -/
theorem c8_counterexample :
    (runMain fsC8 cfgPlain ["d".toList]).state.inserted = [] ∧
    (runMain fsC8 cfgPlain ["d".toList]).state.fileCount = 0 := by
  decide

theorem keyLE_refl (p : Str) : keyLE p p := Or.inr ⟨rfl, Nat.le_refl _⟩

theorem shortestPathsOf_subset (l : List Str) : ∀ p ∈ shortestPathsOf l, p ∈ l := by
  cases l with
  | nil => intro p hp; simp [shortestPathsOf] at hp
  | cons p0 tail =>
    intro p hp
    exact List.mem_filter.mp hp |>.1

theorem filterMapMark_single (sp : List Str) (hsp : sp.length = 1) (l : List Str) :
    (l.filterMap (fun p =>
      if 1 < sp.length ∧ sp.contains p = true then some (p, true)
      else if sp.length = 1 ∧ sp.contains p = true then none
      else some (p, false))) =
    (l.filter (fun p => !sp.contains p)).map (fun p => (p, false)) := by
  induction l with
  | nil => rfl
  | cons p rest ih =>
    simp only [List.filterMap_cons, List.filter_cons]
    by_cases hc : sp.contains p = true
    · have hn1 : ¬ (1 < sp.length ∧ sp.contains p = true) := by
        rw [hsp]; exact fun hand => absurd hand.1 (lt_irrefl 1)
      rw [if_neg hn1, if_pos (And.intro hsp hc), hc]
      simp only [Bool.not_true]
      rw [if_neg Bool.false_ne_true]
      exact ih
    · have hcf : sp.contains p = false := by
        revert hc; cases sp.contains p <;> simp
      have hn1 : ¬ (1 < sp.length ∧ sp.contains p = true) := fun hand => hc hand.2
      have hn2 : ¬ (sp.length = 1 ∧ sp.contains p = true) := fun hand => hc hand.2
      rw [if_neg hn1, if_neg hn2, hcf]
      simp only [Bool.not_false, if_true]
      simp only [List.map_cons]
      exact congrArg (List.cons (p, false)) ih

theorem filterMapMark_tied (sp : List Str) (hsp : 1 < sp.length) (l : List Str) :
    (l.filterMap (fun p =>
      if 1 < sp.length ∧ sp.contains p = true then some (p, true)
      else if sp.length = 1 ∧ sp.contains p = true then none
      else some (p, false))) =
    l.map (fun p => (p, sp.contains p)) := by
  induction l with
  | nil => rfl
  | cons p rest ih =>
    simp only [List.filterMap_cons, List.map_cons]
    by_cases hc : sp.contains p = true
    · rw [if_pos (And.intro hsp hc), hc]
      exact congrArg (List.cons (p, true)) ih
    · have hcf : sp.contains p = false := by
        revert hc; cases sp.contains p <;> simp
      have hn1 : ¬ (1 < sp.length ∧ sp.contains p = true) := fun hand => hc hand.2
      have hn2 : ¬ (sp.length = 1 ∧ sp.contains p = true) := fun hand => hc hand.2
      rw [if_neg hn1, if_neg hn2, hcf]
      exact congrArg (List.cons (p, false)) ih

theorem filterMapMark_none (sp : List Str) (f : Str → Str) (l : List Str)
    (h : ∀ p ∈ l, sp.contains (f p) = false) :
    (l.filterMap (fun p =>
      if 1 < sp.length ∧ sp.contains (f p) = true then some (f p, true)
      else if sp.length = 1 ∧ sp.contains (f p) = true then none
      else some (f p, false))) =
    l.map (fun p => (f p, false)) := by
  induction l with
  | nil => rfl
  | cons p rest ih =>
    have hc : sp.contains (f p) = false := h p (List.mem_cons_self p rest)
    have hn1 : ¬ (1 < sp.length ∧ sp.contains (f p) = true) :=
      fun hand => Bool.false_ne_true (hc ▸ hand.2)
    have hn2 : ¬ (sp.length = 1 ∧ sp.contains (f p) = true) :=
      fun hand => Bool.false_ne_true (hc ▸ hand.2)
    simp only [List.filterMap_cons, List.map_cons]
    rw [if_neg hn1, if_neg hn2]
    exact congrArg (List.cons (f p, false)) (ih (fun q hq => h q (List.mem_cons_of_mem p hq)))

theorem shortestPathsOf_mem_iff (l : List Str) (hs : List.Sorted keyLE l)
    (p : Str) (hp : p ∈ l) :
    p ∈ shortestPathsOf l ↔ ∀ q ∈ l, keyLE p q := by
  cases l with
  | nil => simp at hp
  | cons p0 tail =>
    have hmin : ∀ q ∈ p0 :: tail, keyLE p0 q := by
      intro q hq
      rcases List.mem_cons.mp hq with h | h
      · exact h ▸ keyLE_refl p0
      · exact List.rel_of_sorted_cons hs q h
    constructor
    · intro hsp q hq
      have hf := List.mem_filter.mp hsp
      have hcond := hf.2
      simp only [Bool.and_eq_true, beq_iff_eq] at hcond
      have h3 := hmin q hq
      unfold keyLE at h3 ⊢
      rw [hcond.1, hcond.2]
      exact h3
    · intro hall
      have h1 := hall p0 (List.mem_cons_self p0 tail)
      have h2 := hmin p hp
      unfold keyLE at h1 h2
      have hlen2 : p.length = p0.length := by
        rcases h1 with h1 | ⟨h1, _⟩ <;> rcases h2 with h2 | ⟨h2, _⟩ <;> omega
      have hbase : (goBase p).length = (goBase p0).length := by
        rcases h1 with h1 | ⟨h1a, h1b⟩ <;> rcases h2 with h2 | ⟨h2a, h2b⟩ <;> omega
      show p ∈ (p0 :: tail).filter
        (fun q => q.length == p0.length && (goBase q).length == (goBase p0).length)
      apply List.mem_filter.mpr
      refine ⟨hp, ?_⟩
      simp only [Bool.and_eq_true, beq_iff_eq]
      exact ⟨hlen2, hbase⟩

/-- C3 (amended): for a duplicate group, provided the no-dot display
option is off or no stored member path begins with `./`: the report
sorts the bucket by path length then basename length (the printed
sequence is a sorted permutation of the bucket); the candidate
representative set is exactly the members attaining the minimal
(path length, basename length) pair; a unique candidate is omitted from
the printed list entirely while every other member is printed plainly;
and when several candidates tie, every member is printed, marked
exactly when it is a candidate, so no tied member is silently
omitted. -/
theorem c3_group_rendering (noDot : Bool) (paths : List Str)
    (hlen : 2 ≤ paths.length)
    (hnd : noDot = false ∨ ∀ p ∈ paths, List.isPrefixOf "./".toList p = false) :
    (List.Sorted keyLE (sortGroup paths) ∧ (sortGroup paths).Perm paths) ∧
    (∀ p ∈ sortGroup paths,
      (p ∈ shortestPathsOf (sortGroup paths) ↔ ∀ q ∈ sortGroup paths, keyLE p q)) ∧
    ((shortestPathsOf (sortGroup paths)).length = 1 →
      renderGroup noDot paths =
        ((sortGroup paths).filter
          (fun p => !(shortestPathsOf (sortGroup paths)).contains p)).map
          (fun p => (p, false))) ∧
    (1 < (shortestPathsOf (sortGroup paths)).length →
      renderGroup noDot paths =
        (sortGroup paths).map
          (fun p => (p, (shortestPathsOf (sortGroup paths)).contains p))) := by
  have hperm : (sortGroup paths).Perm paths := List.perm_insertionSort keyLE paths
  have hsort : List.Sorted keyLE (sortGroup paths) := List.sorted_insertionSort keyLE paths
  have hrender : renderGroup noDot paths =
      (sortGroup paths).filterMap (fun p =>
        if 1 < (shortestPathsOf (sortGroup paths)).length ∧
            (shortestPathsOf (sortGroup paths)).contains p = true then some (p, true)
        else if (shortestPathsOf (sortGroup paths)).length = 1 ∧
            (shortestPathsOf (sortGroup paths)).contains p = true then none
        else some (p, false)) := by
    rcases hnd with hnd | hnd
    · subst hnd
      rfl
    · cases noDot with
      | false => rfl
      | true =>
        have hstep : renderGroup true paths =
            (sortGroup paths).filterMap (fun p =>
              if 1 < (shortestPathsOf (sortGroup paths)).length ∧
                  (shortestPathsOf (sortGroup paths)).contains (trimDotSlash p) = true then
                some (trimDotSlash p, true)
              else if (shortestPathsOf (sortGroup paths)).length = 1 ∧
                  (shortestPathsOf (sortGroup paths)).contains (trimDotSlash p) = true then
                none
              else some (trimDotSlash p, false)) := rfl
        rw [hstep]
        apply List.filterMap_congr
        intro p hp
        have hnp : List.isPrefixOf "./".toList p = false := hnd p (hperm.mem_iff.mp hp)
        have hnp2 : ¬ (List.isPrefixOf "./".toList p = true) := by
          intro hcontr
          rw [hnp] at hcontr
          exact Bool.false_ne_true hcontr
        have htp : trimDotSlash p = p := by
          unfold trimDotSlash
          rw [if_neg hnp2]
        rw [htp]
  refine ⟨⟨hsort, hperm⟩, ?_, ?_, ?_⟩
  · intro p hp
    exact shortestPathsOf_mem_iff (sortGroup paths) hsort p hp
  · intro hone
    rw [hrender]
    exact filterMapMark_single _ hone _
  · intro htie
    rw [hrender]
    exact filterMapMark_tied _ htie _

/-- Closed instance of `c3_group_rendering` on the tie case from the
specification: `a/bb.txt` and `c/dd.txt` have equal path and basename
lengths, so both are candidates and both are printed with the
marker. -/
theorem c3_group_rendering_witness :
    2 ≤ (["a/bb.txt".toList, "c/dd.txt".toList] : List Str).length ∧
    1 < (shortestPathsOf (sortGroup ["a/bb.txt".toList, "c/dd.txt".toList])).length ∧
    renderGroup false ["a/bb.txt".toList, "c/dd.txt".toList] =
      (sortGroup ["a/bb.txt".toList, "c/dd.txt".toList]).map
        (fun p => (p,
          (shortestPathsOf (sortGroup ["a/bb.txt".toList, "c/dd.txt".toList])).contains p)) :=
  ⟨by decide, by decide,
   (c3_group_rendering false ["a/bb.txt".toList, "c/dd.txt".toList]
      (by decide) (Or.inl rfl)).2.2.2 (by decide)⟩

/-- C3 refutation: with the no-dot option on and a group whose members
begin with `./`, the single candidate representative `./bb` is not
omitted — the printed lines are `bb` and `cccc`, both plain — because
the trimmed display path no longer matches the untrimmed candidate. -/
theorem c3_counterexample :
    shortestPathsOf (sortGroup ["./bb".toList, "./cccc".toList]) = ["./bb".toList] ∧
    renderGroup true ["./bb".toList, "./cccc".toList] =
      [("bb".toList, false), ("cccc".toList, false)] := by
  decide

/-- C9: when the no-dot option is on and every stored path of the group
begins with `./` (and the remainder does not itself begin with `./`),
the displayed path of each member is trimmed before being compared with
the untrimmed candidate representative set, so no member matches a
candidate: every member — including the unique shortest one and any
tied shortest ones — is printed plainly, with no omission and no
marker. -/
theorem c9_nodot_defeats_candidates (paths : List Str)
    (h : ∀ p ∈ paths, List.isPrefixOf "./".toList p = true ∧
         List.isPrefixOf "./".toList (p.drop 2) = false) :
    (∀ p ∈ sortGroup paths,
      (shortestPathsOf (sortGroup paths)).contains (trimDotSlash p) = false) ∧
    renderGroup true paths = (sortGroup paths).map (fun p => (trimDotSlash p, false)) := by
  have hperm : (sortGroup paths).Perm paths := List.perm_insertionSort keyLE paths
  have hno : ∀ p ∈ sortGroup paths,
      (shortestPathsOf (sortGroup paths)).contains (trimDotSlash p) = false := by
    intro p hp
    have hpp := h p (hperm.mem_iff.mp hp)
    have htrim : trimDotSlash p = p.drop 2 := by
      unfold trimDotSlash
      rw [if_pos hpp.1]
    cases hcon : (shortestPathsOf (sortGroup paths)).contains (trimDotSlash p) with
    | false => rfl
    | true =>
      exfalso
      have hmem : trimDotSlash p ∈ shortestPathsOf (sortGroup paths) := by
        have := List.elem_iff.mp hcon
        exact this
      have hmem2 : trimDotSlash p ∈ sortGroup paths :=
        shortestPathsOf_subset _ _ hmem
      have hmem3 : trimDotSlash p ∈ paths := hperm.mem_iff.mp hmem2
      have := (h (trimDotSlash p) hmem3).1
      rw [htrim] at this
      rw [hpp.2] at this
      exact Bool.false_ne_true this
  refine ⟨hno, ?_⟩
  have hstep : renderGroup true paths =
      (sortGroup paths).filterMap (fun p =>
        if 1 < (shortestPathsOf (sortGroup paths)).length ∧
            (shortestPathsOf (sortGroup paths)).contains (trimDotSlash p) = true then
          some (trimDotSlash p, true)
        else if (shortestPathsOf (sortGroup paths)).length = 1 ∧
            (shortestPathsOf (sortGroup paths)).contains (trimDotSlash p) = true then
          none
        else some (trimDotSlash p, false)) := rfl
  rw [hstep]
  exact filterMapMark_none _ trimDotSlash _ hno

/-- Closed instance of `c9_nodot_defeats_candidates`: the tied group
`./bb`, `./cc` is printed as plain `bb` and `cc` — no omission and no
marker. -/
theorem c9_nodot_defeats_candidates_witness :
    (∀ p ∈ (["./bb".toList, "./cc".toList] : List Str),
      List.isPrefixOf "./".toList p = true ∧
      List.isPrefixOf "./".toList (p.drop 2) = false) ∧
    renderGroup true ["./bb".toList, "./cc".toList] =
      (sortGroup ["./bb".toList, "./cc".toList]).map
        (fun p => (trimDotSlash p, false)) :=
  ⟨by decide,
   (c9_nodot_defeats_candidates ["./bb".toList, "./cc".toList] (by decide)).2⟩

theorem hexChars_append (l m : List Nat) :
    hexChars (l ++ m) = hexChars l ++ hexChars m := by
  simp [hexChars]

theorem hexChars_length (l : List Nat) : (hexChars l).length = 2 * l.length := by
  induction l with
  | nil => rfl
  | cons b rest ih =>
    simp only [hexChars, List.flatMap_cons] at ih ⊢
    simp [hexPair, ih]
    omega

theorem hexChars_replicate_zero (n : Nat) :
    hexChars (List.replicate n 0) = List.replicate (2 * n) '0' := by
  induction n with
  | zero => rfl
  | succ k ih =>
    have h2 : 2 * (k + 1) = (2 * k) + 1 + 1 := by omega
    simp only [List.replicate_succ, hexChars, List.flatMap_cons] at ih ⊢
    rw [h2, List.replicate_succ, List.replicate_succ]
    have hp : hexPair 0 = ['0', '0'] := by decide
    rw [hp, ih]
    rfl

/-- C10: for a readable file hashed with `shake128`, the `Sum` call
appends only the algorithm's 32-byte default output into the 64-byte
buffer (the returned slice is discarded), so the reported digest is the
hex of those 32 bytes followed by 32 zero bytes: a 128-character string
whose last 64 characters are all `0`.  With `shake256` the default
output is 64 bytes, so the whole buffer is real output and the digest
is the full 64-byte hex. -/
theorem c10_shake128_zero_padding (fs : FS) (p : Str) (data : List Nat)
    (hc : fs.content p = some data)
    (h1 : (fs.digest "shake128".toList data).length = 32)
    (h2 : (fs.digest "shake256".toList data).length = 64) :
    hashFile fs p "shake128".toList =
      some (hexChars (fs.digest "shake128".toList data ++ List.replicate 32 0)) ∧
    (hexChars (fs.digest "shake128".toList data ++ List.replicate 32 0)).length = 128 ∧
    (hexChars (fs.digest "shake128".toList data ++ List.replicate 32 0)).drop 64 =
      List.replicate 64 '0' ∧
    hashFile fs p "shake256".toList =
      some (hexChars (fs.digest "shake256".toList data)) ∧
    (hexChars (fs.digest "shake256".toList data)).length = 128 := by
  have hok1 : getHashOk "shake128".toList = true := by decide
  have hok2 : getHashOk "shake256".toList = true := by decide
  have hsh1 : isShake "shake128".toList = true := by decide
  have hsh2 : isShake "shake256".toList = true := by decide
  have hsum1 : sumInto64 (fs.digest "shake128".toList data) =
      fs.digest "shake128".toList data ++ List.replicate 32 0 := by
    unfold sumInto64
    rw [if_pos (by omega), h1]
  have hsum2 : sumInto64 (fs.digest "shake256".toList data) =
      fs.digest "shake256".toList data := by
    unfold sumInto64
    rw [if_pos (by omega), h2]
    simp
  refine ⟨?_, ?_, ?_, ?_, ?_⟩
  · simp only [hashFile, hok1, hc, hsh1, hsum1, eq_self_iff_true, if_true]
  · rw [hexChars_length, List.length_append, h1, List.length_replicate]
  · rw [hexChars_append, hexChars_replicate_zero]
    have hl : (hexChars (fs.digest "shake128".toList data)).length = 64 := by
      rw [hexChars_length, h1]
    have h64 : (2 : Nat) * 32 = 64 := by norm_num
    rw [h64, ← hl, List.drop_left]
  · simp only [hashFile, hok2, hc, hsh2, hsum2, eq_self_iff_true, if_true]
  · rw [hexChars_length, h2]

/-- Closed instance of `c10_shake128_zero_padding` on `fsShake`. -/
theorem c10_shake128_zero_padding_witness :
    fsShake.content "f".toList = some [1] ∧
    (fsShake.digest "shake128".toList [1]).length = 32 ∧
    (fsShake.digest "shake256".toList [1]).length = 64 ∧
    (hashFile fsShake "f".toList "shake128".toList =
      some (hexChars (fsShake.digest "shake128".toList [1] ++ List.replicate 32 0)) ∧
    (hexChars (fsShake.digest "shake128".toList [1] ++ List.replicate 32 0)).length = 128 ∧
    (hexChars (fsShake.digest "shake128".toList [1] ++ List.replicate 32 0)).drop 64 =
      List.replicate 64 '0' ∧
    hashFile fsShake "f".toList "shake256".toList =
      some (hexChars (fsShake.digest "shake256".toList [1])) ∧
    (hexChars (fsShake.digest "shake256".toList [1])).length = 128) :=
  ⟨by decide, by decide, by decide,
   c10_shake128_zero_padding fsShake "f".toList [1] (by decide) (by decide) (by decide)⟩
